import Mathlib

/-!
Verification of the differential shell-testing engine of ShellMeMaybe
(src/go-minishell-tester-core.go).

The engine's pure text processing (ANSI stripping, prompt filtering,
whitespace trimming, substring classification) is embedded directly.
The effectful orchestration (`runTest`, `runValgrindCheck`, `getPrompt`,
`printSummary`) is embedded as pure functions over an explicit oracle
record: each oracle field holds the outcome the external world (file
system, spawned processes, clocks) would deliver for the corresponding
call, and the embedded function composes the `TestResult` exactly as the
Go code does, additionally returning the trace of external effects it
performed.
-/

namespace ShellTester

/-- Strings are modelled as lists of characters; the tester only ever
manipulates ASCII text, where Go's byte/rune views coincide. -/
abbrev Str := List Char

/-- Convert a Lean string literal into the character-list model. -/
def strToChars (s : String) : Str := s.data

/-- The ESC character (0x1B) introducing ANSI escape sequences. -/
def escChar : Char := Char.ofNat 27

/-- Go's `unicode.IsSpace` on the Latin-1 range (all the text the tester
handles): space, tab, newline, vertical tab, form feed, carriage return,
NEL and NBSP. -/
def goIsSpace (c : Char) : Bool :=
  c = ' ' || c = '\t' || c = '\n' || c = Char.ofNat 11 || c = Char.ofNat 12 ||
    c = '\r' || c = Char.ofNat 0x85 || c = Char.ofNat 0xA0

/-- Go's `strings.HasPrefix s pre`. -/
def goStartsWith : Str → Str → Bool
  | _, [] => true
  | [], _ :: _ => false
  | c :: s, p :: ps => c = p && goStartsWith s ps

/-- Go's `strings.Contains s sub`. -/
def goContains : Str → Str → Bool
  | [], sub => sub.isEmpty
  | s@(_ :: t), sub => goStartsWith s sub || goContains t sub

/-- Go's `strings.TrimLeft` over `unicode.IsSpace` (left half of
`strings.TrimSpace`). -/
def trimLeft (s : Str) : Str := s.dropWhile goIsSpace

/-- Go's right-trim over `unicode.IsSpace` (right half of
`strings.TrimSpace`), written head-recursively. -/
def trimRight : Str → Str
  | [] => []
  | c :: rest =>
    match trimRight rest with
    | [] => if goIsSpace c then [] else [c]
    | r :: rs => c :: r :: rs

/-- Go's `strings.TrimSpace`. -/
def trimSpace (s : Str) : Str := trimLeft (trimRight s)

/-- Go's `strings.Split s (String.singleton sep)`. -/
def splitOnChar (sep : Char) : Str → List Str
  | [] => [[]]
  | c :: rest =>
    if c = sep then [] :: splitOnChar sep rest
    else
      match splitOnChar sep rest with
      | [] => [[c]]
      | l :: ls => (c :: l) :: ls

/-- Split a string into its lines, Go's `strings.Split(s, "\n")`. -/
def splitLines (s : Str) : List Str := splitOnChar '\n' s

/-- Go's `strings.Join ls "\n"`. -/
def joinLines : List Str → Str
  | [] => []
  | [l] => l
  | l :: ls => l ++ '\n' :: joinLines ls

/-- Parameter characters of an ANSI escape sequence, the regex class
`[0-9;]` of `go-minishell-tester-core.go` line 91. -/
def isAnsiParamChar (c : Char) : Bool := ('0' ≤ c && c ≤ '9') || c = ';'

/-- Final characters of an ANSI escape sequence, the regex class
`[A-Za-z]`. -/
def isAnsiFinalChar (c : Char) : Bool := ('A' ≤ c && c ≤ 'Z') || ('a' ≤ c && c ≤ 'z')

/-- Attempt to match the tail of the regex `\x1B\[[0-9;]{1,}[A-Za-z]`
directly after an ESC character: a `[`, then a non-empty maximal run of
parameter characters, then a final letter.  Returns the remainder of the
input after the match.  Because the parameter class and the final-letter
class are disjoint, this maximal-munch scan coincides with the regexp
engine's leftmost match. -/
def tryAnsiMatch : Str → Option Str
  | '[' :: rest =>
    match rest.takeWhile isAnsiParamChar, rest.dropWhile isAnsiParamChar with
    | [], _ => none
    | _ :: _, fin :: rest' => if isAnsiFinalChar fin then some rest' else none
    | _ :: _, [] => none
  | _ => none

theorem length_dropWhile_le (p : Char → Bool) (l : Str) :
    (l.dropWhile p).length ≤ l.length := by
  induction l with
  | nil => simp [List.dropWhile]
  | cons a l ih =>
    by_cases h : p a
    · simp only [List.dropWhile, h]
      exact Nat.le_trans ih (Nat.le_succ _)
    · simp [List.dropWhile, h]

theorem tryAnsiMatch_length {s s' : Str} (h : tryAnsiMatch s = some s') :
    s'.length < s.length := by
  match s with
  | [] => simp [tryAnsiMatch] at h
  | c :: rest =>
    by_cases hc : c = '['
    · subst hc
      simp only [tryAnsiMatch] at h
      rcases htw : rest.takeWhile isAnsiParamChar with _ | ⟨p, ps⟩
      · rw [htw] at h; simp at h
      · rcases hdw : rest.dropWhile isAnsiParamChar with _ | ⟨fin, rest''⟩
        · rw [htw, hdw] at h; simp at h
        · rw [htw, hdw] at h
          by_cases hf : isAnsiFinalChar fin
          · simp only [hf, if_pos] at h
            cases h
            have h1 : (rest.dropWhile isAnsiParamChar).length ≤ rest.length :=
              length_dropWhile_le _ _
            rw [hdw] at h1
            simp only [List.length_cons] at h1 ⊢
            omega
          · simp [hf] at h
    · rw [show tryAnsiMatch (c :: rest) = none from by
        cases c; simp only [tryAnsiMatch]; split <;> simp_all] at h
      exact absurd h (by simp)

/-- Fuel-indexed worker for `removeColors`; with fuel at least the length
of the input it performs the full left-to-right scan-and-delete of the
regexp replacement. -/
def removeColorsFuel : Nat → Str → Str
  | 0, s => s
  | _ + 1, [] => []
  | fuel + 1, c :: rest =>
    if c = escChar then
      match tryAnsiMatch rest with
      | some rest' => removeColorsFuel fuel rest'
      | none => c :: removeColorsFuel fuel rest
    else c :: removeColorsFuel fuel rest

/-- Go helper `removeColors` (lines 90-93): delete every non-overlapping
leftmost match of `\x1B\[[0-9;]{1,}[A-Za-z]` in a single left-to-right
scan, as `regexp.ReplaceAllString` does. -/
def removeColors (s : Str) : Str := removeColorsFuel s.length s

theorem removeColorsFuel_congr :
    ∀ (f₁ f₂ : Nat) (s : Str), s.length ≤ f₁ → s.length ≤ f₂ →
      removeColorsFuel f₁ s = removeColorsFuel f₂ s := by
  intro f₁
  induction f₁ with
  | zero =>
    intro f₂ s h₁ _
    have : s = [] := List.length_eq_zero.mp (Nat.le_zero.mp h₁)
    subst this
    cases f₂ <;> rfl
  | succ f ih =>
    intro f₂ s h₁ h₂
    cases s with
    | nil => cases f₂ <;> rfl
    | cons c rest =>
      cases f₂ with
      | zero => simp at h₂
      | succ f₂' =>
        simp only [List.length_cons, Nat.add_le_add_iff_right] at h₁ h₂
        simp only [removeColorsFuel]
        by_cases hc : c = escChar
        · simp only [hc, if_pos rfl]
          rcases hm : tryAnsiMatch rest with _ | rest'
          · rw [ih f₂' rest h₁ h₂]
          · have hlt := tryAnsiMatch_length hm
            exact ih f₂' rest' (by omega) (by omega)
        · simp only [hc, if_neg, ite_false]
          rw [ih f₂' rest h₁ h₂]

theorem removeColors_nil : removeColors [] = [] := rfl

theorem removeColors_cons_ne {c : Char} (rest : Str) (h : c ≠ escChar) :
    removeColors (c :: rest) = c :: removeColors rest := by
  simp [removeColors, removeColorsFuel, h]

theorem removeColors_esc_match {rest rest' : Str}
    (h : tryAnsiMatch rest = some rest') :
    removeColors (escChar :: rest) = removeColors rest' := by
  have hlt := tryAnsiMatch_length h
  simp only [removeColors, List.length_cons, removeColorsFuel, if_pos rfl, h]
  exact removeColorsFuel_congr _ _ _ (by omega) (le_refl _)

theorem removeColors_esc_nomatch {rest : Str} (h : tryAnsiMatch rest = none) :
    removeColors (escChar :: rest) = escChar :: removeColors rest := by
  simp [removeColors, removeColorsFuel, h]

theorem removeColors_of_not_mem {s : Str} (h : escChar ∉ s) :
    removeColors s = s := by
  induction s with
  | nil => rfl
  | cons c rest ih =>
    have hc : c ≠ escChar := fun e => h (e ▸ List.mem_cons_self c rest)
    rw [removeColors_cons_ne rest hc, ih (fun hm => h (List.mem_cons_of_mem _ hm))]

/-- Keep decision on an already-trimmed line (`runTest` lines 409-411):
drop lines that begin with the prompt, contain `$ exit`, or are exactly
`exit`. -/
def keepTrimmedLine (prompt t : Str) : Bool :=
  !goStartsWith t prompt && !goContains t (strToChars "$ exit") &&
    !(t == strToChars "exit")

/-- Keep decision on a raw line (`runTest` lines 406-413): the line is
trimmed before testing. -/
def keepLine (prompt line : Str) : Bool := keepTrimmedLine prompt (trimSpace line)

/-- Prompt-artifact filtering of `runTest` lines 400-417: when a
non-empty prompt is known, split into lines, drop prompt/exit lines and
re-join. -/
def promptFilter (prompt s : Str) : Str :=
  if prompt = [] then s
  else joinLines ((splitLines s).filter (keepLine prompt))

/-- Full candidate-output normalization performed by `runTest`
(lines 398-419): strip ANSI escapes, filter prompt artifacts, trim. -/
def normalizeOutput (prompt s : Str) : Str :=
  trimSpace (promptFilter prompt (removeColors s))

theorem splitOnChar_ne_nil (sep : Char) (s : Str) : splitOnChar sep s ≠ [] := by
  cases s with
  | nil => simp [splitOnChar]
  | cons c rest =>
    by_cases h : c = sep
    · simp [splitOnChar, h]
    · simp only [splitOnChar, if_neg h]
      rcases hs : splitOnChar sep rest with _ | ⟨l, ls⟩ <;> simp

theorem splitOnChar_cons_sep (sep : Char) (rest : Str) :
    splitOnChar sep (sep :: rest) = [] :: splitOnChar sep rest := by
  simp [splitOnChar]

theorem splitLines_cons_nl (rest : Str) :
    splitLines ('\n' :: rest) = [] :: splitLines rest := by
  simp [splitLines, splitOnChar]

theorem splitOnChar_cons_ne {sep c : Char} (h : c ≠ sep) (rest : Str) {l : Str}
    {ls : List Str} (hs : splitOnChar sep rest = l :: ls) :
    splitOnChar sep (c :: rest) = (c :: l) :: ls := by
  simp [splitOnChar, h, hs]

theorem splitOnChar_of_not_mem {sep : Char} {s : Str} (h : sep ∉ s) :
    splitOnChar sep s = [s] := by
  induction s with
  | nil => rfl
  | cons c rest ih =>
    have hc : c ≠ sep := fun e => h (e ▸ List.mem_cons_self c rest)
    have := ih (fun hm => h (List.mem_cons_of_mem _ hm))
    simp [splitOnChar, hc, this]

theorem splitOnChar_append_cons (sep : Char) {l : Str} (h : sep ∉ l) (y : Str) :
    splitOnChar sep (l ++ sep :: y) = l :: splitOnChar sep y := by
  induction l with
  | nil => simp [splitOnChar]
  | cons c l ih =>
    have hc : c ≠ sep := fun e => h (e ▸ List.mem_cons_self c l)
    have := ih (fun hm => h (List.mem_cons_of_mem _ hm))
    simp only [List.cons_append]
    rw [splitOnChar_cons_ne hc _ this]

theorem joinLines_cons₂ (l m : Str) (ls : List Str) :
    joinLines (l :: m :: ls) = l ++ '\n' :: joinLines (m :: ls) := rfl

theorem joinLines_splitLines (s : Str) : joinLines (splitLines s) = s := by
  induction s with
  | nil => rfl
  | cons c rest ih =>
    by_cases h : c = '\n'
    · subst h
      rw [splitLines_cons_nl]
      rcases hs : splitLines rest with _ | ⟨l, ls⟩
      · exact absurd hs (splitOnChar_ne_nil _ _)
      · rw [hs] at ih
        rw [joinLines_cons₂, List.nil_append, ih]
    · rcases hs : splitLines rest with _ | ⟨l, ls⟩
      · exact absurd hs (splitOnChar_ne_nil _ _)
      · rw [show splitLines (c :: rest) = (c :: l) :: ls from splitOnChar_cons_ne h _ hs]
        rw [hs] at ih
        cases ls with
        | nil => simp only [joinLines] at ih ⊢; rw [ih]
        | cons m ms =>
          rw [joinLines_cons₂] at ih
          rw [joinLines_cons₂, List.cons_append, ih]

theorem splitLines_joinLines {ls : List Str} (hne : ls ≠ [])
    (h : ∀ l ∈ ls, '\n' ∉ l) : splitLines (joinLines ls) = ls := by
  induction ls with
  | nil => exact absurd rfl hne
  | cons l ls ih =>
    cases ls with
    | nil =>
      show splitOnChar '\n' (joinLines [l]) = [l]
      exact splitOnChar_of_not_mem (h l (List.mem_cons_self _ _))
    | cons m ms =>
      rw [joinLines_cons₂]
      show splitOnChar '\n' (l ++ '\n' :: joinLines (m :: ms)) = _
      rw [splitOnChar_append_cons '\n' (h l (List.mem_cons_self _ _))]
      rw [show splitOnChar '\n' (joinLines (m :: ms)) = m :: ms from
        ih (by simp) (fun x hx => h x (List.mem_cons_of_mem _ hx))]

theorem not_mem_sep_of_mem_splitOnChar {sep : Char} {s l : Str}
    (h : l ∈ splitOnChar sep s) : sep ∉ l := by
  induction s generalizing l with
  | nil =>
    simp only [splitOnChar, List.mem_singleton] at h
    subst h; simp
  | cons c rest ih =>
    by_cases hc : c = sep
    · subst hc
      rw [splitOnChar_cons_sep] at h
      rcases List.mem_cons.mp h with h | h
      · subst h; simp
      · exact ih h
    · rcases hs : splitOnChar sep rest with _ | ⟨m, ms⟩
      · exact absurd hs (splitOnChar_ne_nil _ _)
      · rw [splitOnChar_cons_ne hc _ hs] at h
        rcases List.mem_cons.mp h with h | h
        · subst h
          intro hmem
          rcases List.mem_cons.mp hmem with h | h
          · exact hc h.symm
          · exact ih (hs ▸ List.mem_cons_self m ms) h
        · exact ih (hs ▸ List.mem_cons_of_mem m h)

theorem mem_of_mem_splitOnChar {sep a : Char} {s l : Str}
    (hl : l ∈ splitOnChar sep s) (ha : a ∈ l) : a ∈ s := by
  induction s generalizing l with
  | nil =>
    simp only [splitOnChar, List.mem_singleton] at hl
    subst hl; exact absurd ha (by simp)
  | cons c rest ih =>
    by_cases hc : c = sep
    · subst hc
      rw [splitOnChar_cons_sep] at hl
      rcases List.mem_cons.mp hl with h | h
      · subst h; exact absurd ha (by simp)
      · exact List.mem_cons_of_mem _ (ih h ha)
    · rcases hs : splitOnChar sep rest with _ | ⟨m, ms⟩
      · exact absurd hs (splitOnChar_ne_nil _ _)
      · rw [splitOnChar_cons_ne hc _ hs] at hl
        rcases List.mem_cons.mp hl with h | h
        · subst h
          rcases List.mem_cons.mp ha with h | h
          · exact h ▸ List.mem_cons_self _ _
          · exact List.mem_cons_of_mem _ (ih (hs ▸ List.mem_cons_self m ms) h)
        · exact List.mem_cons_of_mem _ (ih (hs ▸ List.mem_cons_of_mem m h) ha)

theorem mem_joinLines {a : Char} {ls : List Str} (h : a ∈ joinLines ls) :
    a = '\n' ∨ ∃ l ∈ ls, a ∈ l := by
  induction ls with
  | nil => exact absurd h (by simp [joinLines])
  | cons l ls ih =>
    cases ls with
    | nil => exact Or.inr ⟨l, List.mem_cons_self _ _, h⟩
    | cons m ms =>
      rw [joinLines_cons₂] at h
      rcases List.mem_append.mp h with h | h
      · exact Or.inr ⟨l, List.mem_cons_self _ _, h⟩
      · rcases List.mem_cons.mp h with h | h
        · exact Or.inl h
        · rcases ih h with h | ⟨x, hx, hax⟩
          · exact Or.inl h
          · exact Or.inr ⟨x, List.mem_cons_of_mem _ hx, hax⟩

theorem mem_of_mem_trimLeft {a : Char} {s : Str} (h : a ∈ trimLeft s) : a ∈ s := by
  induction s with
  | nil => exact absurd h (by simp [trimLeft])
  | cons c rest ih =>
    by_cases hc : goIsSpace c
    · simp only [trimLeft, List.dropWhile, hc] at h
      exact List.mem_cons_of_mem _ (ih h)
    · simpa only [trimLeft, List.dropWhile, hc] using h

theorem mem_of_mem_trimRight {a : Char} {s : Str} (h : a ∈ trimRight s) : a ∈ s := by
  induction s with
  | nil => exact absurd h (by simp [trimRight])
  | cons c rest ih =>
    simp only [trimRight] at h
    rcases h1 : trimRight rest with _ | ⟨r, rs⟩
    · rw [h1] at h
      by_cases hc : goIsSpace c
      · simp [hc] at h
      · simp only [hc, Bool.false_eq_true, if_false, ite_false,
          List.mem_singleton] at h
        exact h ▸ List.mem_cons_self _ _
    · rw [h1] at h
      rcases List.mem_cons.mp h with h | h
      · exact h ▸ List.mem_cons_self _ _
      · exact List.mem_cons_of_mem _ (ih (h1 ▸ h))

theorem mem_of_mem_trimSpace {a : Char} {s : Str} (h : a ∈ trimSpace s) : a ∈ s :=
  mem_of_mem_trimRight (mem_of_mem_trimLeft h)

theorem trimLeft_cons_space {c : Char} (hc : goIsSpace c) (s : Str) :
    trimLeft (c :: s) = trimLeft s := by
  simp [trimLeft, List.dropWhile, hc]

theorem trimLeft_cons_nonspace {c : Char} (hc : ¬ goIsSpace c) (s : Str) :
    trimLeft (c :: s) = c :: s := by
  simp [trimLeft, List.dropWhile, hc]

theorem trimLeft_trimLeft (s : Str) : trimLeft (trimLeft s) = trimLeft s := by
  induction s with
  | nil => rfl
  | cons c rest ih =>
    by_cases hc : goIsSpace c
    · rw [trimLeft_cons_space hc]; exact ih
    · rw [trimLeft_cons_nonspace hc, trimLeft_cons_nonspace hc]

theorem trimRight_cons (c : Char) (rest : Str) :
    trimRight (c :: rest) =
      match trimRight rest with
      | [] => if goIsSpace c then [] else [c]
      | r :: rs => c :: r :: rs := rfl

theorem trimRight_cons_of_eq_nil {c : Char} {rest : Str} (h : trimRight rest = []) :
    trimRight (c :: rest) = if goIsSpace c then [] else [c] := by
  rw [trimRight_cons, h]

theorem trimRight_cons_of_eq_cons {c r : Char} {rest : Str} {rs : List Char}
    (h : trimRight rest = r :: rs) : trimRight (c :: rest) = c :: r :: rs := by
  rw [trimRight_cons, h]

theorem trimRight_trimRight (s : Str) : trimRight (trimRight s) = trimRight s := by
  induction s with
  | nil => rfl
  | cons c rest ih =>
    rcases h1 : trimRight rest with _ | ⟨r, rs⟩
    · rw [trimRight_cons_of_eq_nil h1]
      by_cases hc : goIsSpace c
      · simp [hc, trimRight]
      · simp [hc, trimRight]
    · have h2 : trimRight (r :: rs) = r :: rs := h1 ▸ ih
      rw [trimRight_cons_of_eq_cons h1]
      exact trimRight_cons_of_eq_cons h2

theorem trimRight_snoc (y : Str) (c : Char) :
    trimRight (y ++ [c]) = if goIsSpace c then trimRight y else y ++ [c] := by
  induction y with
  | nil =>
    by_cases hc : goIsSpace c <;> simp [trimRight, hc]
  | cons a y ih =>
    by_cases hc : goIsSpace c
    · have ih' : trimRight (y ++ [c]) = trimRight y := by simpa [hc] using ih
      rw [List.cons_append, trimRight_cons, ih', if_pos hc, ← trimRight_cons]
    · have ih' : trimRight (y ++ [c]) = y ++ [c] := by simpa [hc] using ih
      rcases hy : y ++ [c] with _ | ⟨d, ds⟩
      · exact absurd hy (by simp)
      · rw [List.cons_append, trimRight_cons, ih', hy, if_neg hc]

theorem trimSpace_cons_space {c : Char} (hc : goIsSpace c) (s : Str) :
    trimSpace (c :: s) = trimSpace s := by
  unfold trimSpace
  rcases h1 : trimRight s with _ | ⟨r, rs⟩
  · rw [trimRight_cons_of_eq_nil h1, if_pos hc]
  · rw [trimRight_cons_of_eq_cons h1, trimLeft_cons_space hc]

theorem trimSpace_snoc_space {c : Char} (hc : goIsSpace c) (s : Str) :
    trimSpace (s ++ [c]) = trimSpace s := by
  unfold trimSpace
  rw [trimRight_snoc, if_pos hc]

theorem trimRight_trimLeft_fixed {s : Str} (h : trimRight s = s) :
    trimRight (trimLeft s) = trimLeft s := by
  induction s with
  | nil => rfl
  | cons c rest ih =>
    rcases h1 : trimRight rest with _ | ⟨r, rs⟩
    · have h2 : (if goIsSpace c then ([] : Str) else [c]) = c :: rest := by
        rw [← trimRight_cons_of_eq_nil h1]; exact h
      by_cases hc : goIsSpace c
      · rw [if_pos hc] at h2
        exact absurd h2 (by simp)
      · rw [if_neg hc] at h2
        have hrest : rest = [] := by
          injection h2 with _ h3
          exact h3.symm
        subst hrest
        rw [trimLeft_cons_nonspace hc]
        exact h
    · have h2 : c :: r :: rs = c :: rest := by
        rw [← trimRight_cons_of_eq_cons h1]; exact h
      have hrest : rest = r :: rs := by
        injection h2 with _ h3
        exact h3.symm
      by_cases hc : goIsSpace c
      · rw [trimLeft_cons_space hc]
        exact ih (h1.trans hrest.symm)
      · rw [trimLeft_cons_nonspace hc]
        exact h

theorem trimSpace_trimSpace (s : Str) : trimSpace (trimSpace s) = trimSpace s := by
  have h1 : trimRight (trimRight s) = trimRight s := trimRight_trimRight s
  have h2 : trimRight (trimLeft (trimRight s)) = trimLeft (trimRight s) :=
    trimRight_trimLeft_fixed h1
  show trimLeft (trimRight (trimLeft (trimRight s))) = trimLeft (trimRight s)
  rw [h2, trimLeft_trimLeft]

/-- All elements of a list of lines except the last. -/
def frontLines : List Str → List Str
  | [] => []
  | [_] => []
  | l :: ls => l :: frontLines ls

/-- Last element of a list of lines, or the empty line. -/
def lastLineD : List Str → Str
  | [] => []
  | [l] => l
  | _ :: ls => lastLineD ls

theorem frontLines_cons₂ (l m : Str) (ls : List Str) :
    frontLines (l :: m :: ls) = l :: frontLines (m :: ls) := rfl

theorem lastLineD_cons₂ (l m : Str) (ls : List Str) :
    lastLineD (l :: m :: ls) = lastLineD (m :: ls) := rfl

theorem frontLines_append_lastLineD {ls : List Str} (h : ls ≠ []) :
    frontLines ls ++ [lastLineD ls] = ls := by
  induction ls with
  | nil => exact absurd rfl h
  | cons l ls ih =>
    cases ls with
    | nil => rfl
    | cons m ms =>
      rw [frontLines_cons₂, lastLineD_cons₂, List.cons_append, ih (by simp)]

theorem splitLines_snoc_nl (y : Str) :
    splitLines (y ++ ['\n']) = splitLines y ++ [[]] := by
  induction y with
  | nil => rfl
  | cons a y ih =>
    by_cases ha : a = '\n'
    · subst ha
      rw [List.cons_append, splitLines_cons_nl, splitLines_cons_nl, ih,
        List.cons_append]
    · rcases hs : splitLines y with _ | ⟨l₀, ls₀⟩
      · exact absurd hs (splitOnChar_ne_nil _ _)
      · rw [hs] at ih
        rw [List.cons_append,
          show splitLines (a :: (y ++ ['\n'])) = (a :: l₀) :: (ls₀ ++ [[]]) from
            splitOnChar_cons_ne ha _ (by rw [← List.cons_append]; exact ih),
          show splitLines (a :: y) = (a :: l₀) :: ls₀ from
            splitOnChar_cons_ne ha _ hs,
          List.cons_append]

theorem splitLines_snoc_ne {c : Char} (hc : c ≠ '\n') (y : Str) :
    splitLines (y ++ [c]) =
      frontLines (splitLines y) ++ [lastLineD (splitLines y) ++ [c]] := by
  induction y with
  | nil =>
    rw [List.nil_append,
      show splitLines [c] = [[c]] from
        splitOnChar_of_not_mem (by simpa using fun e => hc e.symm)]
    rfl
  | cons a y ih =>
    by_cases ha : a = '\n'
    · subst ha
      rw [List.cons_append, splitLines_cons_nl, splitLines_cons_nl, ih]
      rcases hs : splitLines y with _ | ⟨l₀, ls₀⟩
      · exact absurd hs (splitOnChar_ne_nil _ _)
      · rw [frontLines_cons₂, lastLineD_cons₂, List.cons_append]
    · rcases hs : splitLines y with _ | ⟨l₀, ls₀⟩
      · exact absurd hs (splitOnChar_ne_nil _ _)
      · rw [hs] at ih
        cases ls₀ with
        | nil =>
          have hT : splitLines (y ++ [c]) = [l₀ ++ [c]] := by
            rw [ih]; rfl
          rw [List.cons_append,
            show splitLines (a :: (y ++ [c])) = (a :: (l₀ ++ [c])) :: [] from
              splitOnChar_cons_ne ha _ hT,
            show splitLines (a :: y) = (a :: l₀) :: [] from
              splitOnChar_cons_ne ha _ hs]
          rfl
        | cons m ms =>
          have hT : splitLines (y ++ [c]) =
              l₀ :: (frontLines (m :: ms) ++ [lastLineD (m :: ms) ++ [c]]) := by
            rw [ih, frontLines_cons₂, lastLineD_cons₂, List.cons_append]
          rw [List.cons_append,
            show splitLines (a :: (y ++ [c])) =
                (a :: l₀) :: (frontLines (m :: ms) ++ [lastLineD (m :: ms) ++ [c]]) from
              splitOnChar_cons_ne ha _ hT,
            show splitLines (a :: y) = (a :: l₀) :: m :: ms from
              splitOnChar_cons_ne ha _ hs,
            frontLines_cons₂, lastLineD_cons₂, List.cons_append]

theorem lines_cons_space_transfer {c : Char} (hc : goIsSpace c) {rest ℓ : Str}
    (hm : ℓ ∈ splitLines rest) :
    ∃ ℓ₂ ∈ splitLines (c :: rest), trimSpace ℓ = trimSpace ℓ₂ := by
  by_cases hnl : c = '\n'
  · subst hnl
    rw [splitLines_cons_nl]
    exact ⟨ℓ, List.mem_cons_of_mem _ hm, rfl⟩
  · rcases hs : splitLines rest with _ | ⟨l₀, ls₀⟩
    · exact absurd hs (splitOnChar_ne_nil _ _)
    · rw [show splitLines (c :: rest) = (c :: l₀) :: ls₀ from
        splitOnChar_cons_ne hnl _ hs]
      rw [hs] at hm
      rcases List.mem_cons.mp hm with h | h
      · exact ⟨c :: l₀, List.mem_cons_self _ _, h ▸ (trimSpace_cons_space hc l₀).symm⟩
      · exact ⟨ℓ, List.mem_cons_of_mem _ h, rfl⟩

theorem lines_trimLeft_transfer {x ℓ' : Str} (h : ℓ' ∈ splitLines (trimLeft x)) :
    ∃ ℓ ∈ splitLines x, trimSpace ℓ' = trimSpace ℓ := by
  induction x with
  | nil => exact ⟨ℓ', h, rfl⟩
  | cons c rest ih =>
    by_cases hc : goIsSpace c
    · rw [trimLeft_cons_space hc] at h
      obtain ⟨ℓ, hmem, heq⟩ := ih h
      obtain ⟨ℓ₂, hm2, heq2⟩ := lines_cons_space_transfer hc hmem
      exact ⟨ℓ₂, hm2, heq.trans heq2⟩
    · rw [trimLeft_cons_nonspace hc] at h
      exact ⟨ℓ', h, rfl⟩

theorem lines_snoc_space_transfer {c : Char} (hc : goIsSpace c) {y ℓ : Str}
    (hm : ℓ ∈ splitLines y) :
    ∃ ℓ₂ ∈ splitLines (y ++ [c]), trimSpace ℓ = trimSpace ℓ₂ := by
  by_cases hnl : c = '\n'
  · subst hnl
    rw [splitLines_snoc_nl]
    exact ⟨ℓ, List.mem_append_left _ hm, rfl⟩
  · rw [splitLines_snoc_ne hnl]
    rw [← frontLines_append_lastLineD
      (show splitLines y ≠ [] from splitOnChar_ne_nil '\n' y)] at hm
    rcases List.mem_append.mp hm with h | h
    · exact ⟨ℓ, List.mem_append_left _ h, rfl⟩
    · refine ⟨lastLineD (splitLines y) ++ [c],
        List.mem_append_right _ (List.mem_singleton.mpr rfl), ?_⟩
      rw [List.mem_singleton.mp h, trimSpace_snoc_space hc]

theorem lines_trimRight_transfer {x ℓ' : Str} (h : ℓ' ∈ splitLines (trimRight x)) :
    ∃ ℓ ∈ splitLines x, trimSpace ℓ' = trimSpace ℓ := by
  induction x using List.reverseRecOn with
  | nil => exact ⟨ℓ', h, rfl⟩
  | append_singleton y c ih =>
    rw [trimRight_snoc] at h
    by_cases hc : goIsSpace c
    · rw [if_pos hc] at h
      obtain ⟨ℓ, hmem, heq⟩ := ih h
      obtain ⟨ℓ₂, hm2, heq2⟩ := lines_snoc_space_transfer hc hmem
      exact ⟨ℓ₂, hm2, heq.trans heq2⟩
    · rw [if_neg hc] at h
      exact ⟨ℓ', h, rfl⟩

theorem lines_trimSpace_transfer {x ℓ' : Str} (h : ℓ' ∈ splitLines (trimSpace x)) :
    ∃ ℓ ∈ splitLines x, trimSpace ℓ' = trimSpace ℓ := by
  obtain ⟨ℓ₁, h1, e1⟩ := lines_trimLeft_transfer h
  obtain ⟨ℓ, h2, e2⟩ := lines_trimRight_transfer h1
  exact ⟨ℓ, h2, e1.trans e2⟩

theorem keepLine_congr {p ℓ ℓ' : Str} (h : trimSpace ℓ = trimSpace ℓ') :
    keepLine p ℓ = keepLine p ℓ' := by
  unfold keepLine; rw [h]

theorem promptFilter_of_nil_prompt {p : Str} (hp : p = []) (s : Str) :
    promptFilter p s = s := by
  unfold promptFilter; rw [if_pos hp]

theorem promptFilter_nil (p : Str) : promptFilter p [] = [] := by
  unfold promptFilter
  split
  · rfl
  · show joinLines (List.filter (keepLine p) [[]]) = []
    by_cases hk : keepLine p []
    · simp only [List.filter, hk]; rfl
    · simp only [List.filter, hk]; rfl

theorem promptFilter_trimSpace_promptFilter (p z : Str) :
    promptFilter p (trimSpace (promptFilter p z)) = trimSpace (promptFilter p z) := by
  by_cases hp : p = []
  · rw [promptFilter_of_nil_prompt hp]
  · have hpf : promptFilter p z = joinLines ((splitLines z).filter (keepLine p)) := by
      unfold promptFilter; rw [if_neg hp]
    rcases hk : (splitLines z).filter (keepLine p) with _ | ⟨k0, ks⟩
    · rw [hpf, hk]
      exact promptFilter_nil p
    · have hne : (splitLines z).filter (keepLine p) ≠ [] := by rw [hk]; simp
      have hnl : ∀ l ∈ (splitLines z).filter (keepLine p), '\n' ∉ l := fun l hl =>
        not_mem_sep_of_mem_splitOnChar (List.mem_of_mem_filter hl)
      have hsj : splitLines (joinLines ((splitLines z).filter (keepLine p))) =
          (splitLines z).filter (keepLine p) := splitLines_joinLines hne hnl
      rw [hpf]
      unfold promptFilter
      rw [if_neg hp]
      have hall : ∀ ℓ' ∈
          splitLines (trimSpace (joinLines ((splitLines z).filter (keepLine p)))),
          keepLine p ℓ' = true := by
        intro ℓ' h'
        obtain ⟨ℓ, hmem, heq⟩ := lines_trimSpace_transfer h'
        rw [hsj] at hmem
        rw [keepLine_congr heq]
        exact List.of_mem_filter hmem
      rw [List.filter_eq_self.mpr hall, joinLines_splitLines]

theorem not_mem_promptFilter {a : Char} (ha : a ≠ '\n') {p s : Str} (h : a ∉ s) :
    a ∉ promptFilter p s := by
  unfold promptFilter
  split
  · exact h
  · intro hmem
    rcases mem_joinLines hmem with he | ⟨l, hl, hal⟩
    · exact ha he
    · exact h (mem_of_mem_splitOnChar (List.mem_of_mem_filter hl) hal)

theorem not_mem_trimSpace {a : Char} {s : Str} (h : a ∉ s) : a ∉ trimSpace s :=
  fun hm => h (mem_of_mem_trimSpace hm)

/-- Nested ANSI fragment `ESC [ ESC [ 3 1 m 0 m`: stripping its one escape
sequence exposes the fresh escape sequence `ESC [ 0 m`. -/
def nestedAnsi : Str := [escChar, '[', escChar, '[', '3', '1', 'm', '0', 'm']

/-- C3 (counterexample): output normalization is not idempotent for every
input and prompt; on `nestedAnsi` (with the empty prompt) a first pass
leaves `ESC [ 0 m` and a second pass deletes it. -/
theorem c3_counterexample :
    ¬ ∀ (p s : Str), normalizeOutput p (normalizeOutput p s) = normalizeOutput p s :=
  fun h => absurd (h [] nestedAnsi) (by decide)

/-- C3 (amended): output normalization is idempotent on every input that
contains no ESC character, for every prompt; colour stripping is the
identity there, and prompt-line filtering followed by trimming is a
projection. -/
theorem c3_theorem (p s : Str) (h : escChar ∉ s) :
    normalizeOutput p (normalizeOutput p s) = normalizeOutput p s := by
  unfold normalizeOutput
  rw [removeColors_of_not_mem h]
  have h2 : escChar ∉ trimSpace (promptFilter p s) :=
    not_mem_trimSpace (not_mem_promptFilter (by decide) h)
  rw [removeColors_of_not_mem h2, promptFilter_trimSpace_promptFilter,
    trimSpace_trimSpace]

/-- C3 (witness): the amended idempotence theorem applied to a concrete
escape-free capture with prompt `$`. -/
theorem c3_theorem_witness :
    escChar ∉ strToChars "$ echo hola\nhola\nexit\n" ∧
      normalizeOutput (strToChars "$")
          (normalizeOutput (strToChars "$") (strToChars "$ echo hola\nhola\nexit\n")) =
        normalizeOutput (strToChars "$") (strToChars "$ echo hola\nhola\nexit\n") :=
  ⟨by decide, c3_theorem (strToChars "$") (strToChars "$ echo hola\nhola\nexit\n") (by decide)⟩

/-- TestCase (go-minishell-tester-core.go lines 40-44). -/
structure TestCase where
  command : Str
  description : Str
  skip : Bool
  deriving DecidableEq

/-- Configuration options relevant to the engine's control flow
(lines 54-70).  Directory paths are not represented: their contents are
abstracted into the oracle outcomes of the calls that touch them.
Durations are abstract ticks. -/
structure Config where
  skipValgrind : Bool
  verbose : Bool
  timeout : Nat
  valgrindTimeout : Nat
  deriving DecidableEq

/-- TestResult (lines 73-87), with Go zero values as defaults; `error`
models the `error` field as an optional message. -/
structure TestResult where
  command : Str := []
  passed : Bool := false
  miniOutput : Str := []
  bashOutput : Str := []
  miniExitCode : Int := 0
  bashExitCode : Int := 0
  miniErrorMsg : Str := []
  bashErrorMsg : Str := []
  outfilesDiff : Str := []
  hasLeaks : Bool := false
  hasOpenFDs : Bool := false
  timeTaken : Nat := 0
  error : Option Str := none
  deriving DecidableEq

/-- Result of `cmd.Output()`: nil error, an `*exec.ExitError` carrying an
exit code, or any other error (notably a process-spawn failure). -/
inductive CmdError where
  | none
  | exitError (code : Int)
  | other (msg : Str)
  deriving DecidableEq

/-- Outcome of racing `cmd.Output()` against the timeout timer
(lines 373-395 and 463-485). -/
inductive RunOutcome where
  | timedOut
  | completed (output : Str) (err : CmdError)
  deriving DecidableEq

/-- Outcome of an external capture that either yields text or fails
(used for `compareDirs` and the prompt probes). -/
inductive RunCapture where
  | ok (out : Str)
  | failed (msg : Str)
  deriving DecidableEq

/-- Decimal rendering of an abstract duration for error messages (Go
pretty-prints `time.Duration`; only the message's presence matters to
the engine's control flow). -/
def durStr (n : Nat) : Str := strToChars (toString n)

/-- Convert the raw stderr capture into the stored error message
(lines 430-439 and 498-507): split on `:` and keep the trimmed last
part, or the trimmed whole when there is no colon. -/
def extractErrMsg (s : Str) : Str :=
  if s = [] then []
  else
    if (splitOnChar ':' s).length > 1 then trimSpace (lastLineD (splitOnChar ':' s))
    else trimSpace s

/-- Oracle for one `runValgrindCheck` call: outcomes of the stdin pipe
creation, process start, stdin write, the timeout race (with whether the
child exits inside the 500 ms grace window), `Wait`, and the captured
stderr diagnostics. -/
structure ValgrindEvent where
  stdinPipeErr : Option Str := none
  startErr : Option Str := none
  writeErr : Option Str := none
  timedOut : Bool := false
  exitedInGrace : Bool := true
  waitErr : Option Str := none
  stderrOutput : Str := []
  deriving DecidableEq

/-- Leak classification of the valgrind diagnostic stream
(lines 296-299). -/
def hasLeakMarkers (out : Str) : Bool :=
  goContains out (strToChars "definitely lost") ||
    goContains out (strToChars "indirectly lost") ||
    goContains out (strToChars "possibly lost") ||
    goContains out (strToChars "still reachable")

/-- Open-file-descriptor classification of the valgrind diagnostic
stream (line 302). -/
def hasOpenFDMarker (out : Str) : Bool :=
  goContains out (strToChars "file descriptors are left open")

/-- Effective valgrind timeout (lines 261-265): the configured value, or
double the regular timeout when unset. -/
def valgrindTimeoutOf (config : Config) : Nat :=
  if config.valgrindTimeout = 0 then config.timeout * 2 else config.valgrindTimeout

/-- runValgrindCheck (lines 218-326) over its oracle, returning
`(hasLeaks, hasOpenFDs, error)`. -/
def runValgrindCheck (config : Config) (ev : ValgrindEvent) :
    Bool × Bool × Option Str :=
  if config.skipValgrind then (false, false, none)
  else
    match ev.stdinPipeErr with
    | some e => (false, false, some e)
    | none =>
      match ev.startErr with
      | some e => (false, false, some e)
      | none =>
        match ev.writeErr with
        | some e => (false, false, some e)
        | none =>
          if ev.timedOut then
            (false, false, some (strToChars "valgrind timed out after " ++
              durStr (valgrindTimeoutOf config)))
          else
            match ev.waitErr with
            | some e =>
              if !goContains e (strToChars "exit status") then (false, false, some e)
              else (hasLeakMarkers ev.stderrOutput, hasOpenFDMarker ev.stderrOutput, none)
            | none =>
              (hasLeakMarkers ev.stderrOutput, hasOpenFDMarker ev.stderrOutput, none)

/-- External effects a `runTest` invocation can perform, recorded in
order of occurrence. -/
inductive Effect where
  | cleanOutfilesDirEff
  | cleanMiniOutDirEff
  | cleanBashOutDirEff
  | spawnMinishell
  | copyMiniOutfiles
  | readMiniStderr
  | spawnBash
  | copyBashOutfiles
  | readBashStderr
  | diffOutfiles
  | spawnValgrind
  deriving DecidableEq

/-- Oracle describing the outcomes the environment delivers to one
`runTest` invocation, one field per external call site.  For the
`cleanDir`/`copyFiles` fields, `some e` is the error returned by the
call and `none` is success; for the stderr-file reads, `some s` is the
file content and `none` a failed read (which Go silently skips). -/
structure RunTestOracle where
  cleanOutfiles1 : Option Str := none
  cleanMiniOut : Option Str := none
  cleanBashOut : Option Str := none
  miniRun : RunOutcome := RunOutcome.completed [] CmdError.none
  copyMini : Option Str := none
  miniStderrContent : Option Str := none
  cleanOutfiles2 : Option Str := none
  bashRun : RunOutcome := RunOutcome.completed [] CmdError.none
  copyBash : Option Str := none
  bashStderrContent : Option Str := none
  compareOutcome : RunCapture := RunCapture.ok []
  valgrind : ValgrindEvent := {}
  elapsed : Nat := 0
  deriving DecidableEq

/-- Pass/fail classification of runTest lines 527-537. -/
def classifyPassed (skipValgrind : Bool) (miniOutput bashOutput : Str)
    (miniExitCode bashExitCode : Int) (outfilesDiff : Str)
    (hasLeaks hasOpenFDs : Bool) : Bool :=
  let outputMatches := miniOutput == bashOutput
  let exitCodeMatches := miniExitCode == bashExitCode
  let noOutfileDiff := outfilesDiff == ([] : Str)
  let noMemoryIssues := !hasLeaks && !hasOpenFDs
  if skipValgrind then outputMatches && exitCodeMatches && noOutfileDiff
  else outputMatches && exitCodeMatches && noOutfileDiff && noMemoryIssues

/-- runTest (lines 329-543): execute one test case against the oracle,
returning the TestResult together with the trace of external effects.
The exit-code updates mirror lines 376-385/466-475: an `*exec.ExitError`
stores its code, a nil error stores 0, and any other error leaves the
zero value 0 untouched. -/
def runTest (config : Config) (prompt : Str) (test : TestCase)
    (o : RunTestOracle) : TestResult × List Effect :=
  let result : TestResult := { command := test.command }
  if test.skip then
    ({ result with error := some (strToChars "test skipped") }, [])
  else
    match o.cleanOutfiles1 with
    | some e =>
      ({ result with error := some (strToChars "failed to clean outfiles dir: " ++ e) },
        [Effect.cleanOutfilesDirEff])
    | none =>
    match o.cleanMiniOut with
    | some e =>
      ({ result with error := some (strToChars "failed to clean mini outfiles dir: " ++ e) },
        [Effect.cleanOutfilesDirEff, Effect.cleanMiniOutDirEff])
    | none =>
    match o.cleanBashOut with
    | some e =>
      ({ result with error := some (strToChars "failed to clean bash outfiles dir: " ++ e) },
        [Effect.cleanOutfilesDirEff, Effect.cleanMiniOutDirEff, Effect.cleanBashOutDirEff])
    | none =>
    let tr0 : List Effect :=
      [Effect.cleanOutfilesDirEff, Effect.cleanMiniOutDirEff, Effect.cleanBashOutDirEff,
        Effect.spawnMinishell]
    match o.miniRun with
    | RunOutcome.timedOut =>
      ({ result with
          error := some (strToChars "minishell command timed out after " ++ durStr config.timeout),
          miniOutput := strToChars "COMMAND TIMED OUT",
          miniExitCode := -1 }, tr0)
    | RunOutcome.completed miniOut miniErr =>
    let result := { result with
      miniExitCode := match miniErr with
        | CmdError.exitError code => code
        | _ => 0,
      miniOutput := normalizeOutput prompt miniOut }
    match o.copyMini with
    | some e =>
      ({ result with error := some (strToChars "failed to copy mini outfiles: " ++ e) },
        tr0 ++ [Effect.copyMiniOutfiles])
    | none =>
    let result := { result with
      miniErrorMsg := match o.miniStderrContent with
        | some s => extractErrMsg s
        | none => result.miniErrorMsg }
    let tr1 := tr0 ++ [Effect.copyMiniOutfiles, Effect.readMiniStderr]
    match o.cleanOutfiles2 with
    | some e =>
      ({ result with error := some (strToChars "failed to clean outfiles dir: " ++ e) },
        tr1 ++ [Effect.cleanOutfilesDirEff])
    | none =>
    match o.bashRun with
    | RunOutcome.timedOut =>
      ({ result with
          error := some (strToChars "bash command timed out after " ++ durStr config.timeout),
          bashOutput := strToChars "COMMAND TIMED OUT",
          bashExitCode := -1 },
        tr1 ++ [Effect.cleanOutfilesDirEff, Effect.spawnBash])
    | RunOutcome.completed bashOut bashErr =>
    let result := { result with
      bashExitCode := match bashErr with
        | CmdError.exitError code => code
        | _ => 0,
      bashOutput := trimSpace bashOut }
    let tr2 := tr1 ++ [Effect.cleanOutfilesDirEff, Effect.spawnBash]
    match o.copyBash with
    | some e =>
      ({ result with error := some (strToChars "failed to copy bash outfiles: " ++ e) },
        tr2 ++ [Effect.copyBashOutfiles])
    | none =>
    let result := { result with
      bashErrorMsg := match o.bashStderrContent with
        | some s => extractErrMsg s
        | none => result.bashErrorMsg }
    let tr3 := tr2 ++ [Effect.copyBashOutfiles, Effect.readBashStderr, Effect.diffOutfiles]
    match o.compareOutcome with
    | RunCapture.failed e =>
      ({ result with error := some (strToChars "failed to compare outfiles: " ++ e) }, tr3)
    | RunCapture.ok diffOut =>
    let result := { result with outfilesDiff := diffOut }
    let hasLeaks := (runValgrindCheck config o.valgrind).1
    let hasOpenFDs := (runValgrindCheck config o.valgrind).2.1
    let verr := (runValgrindCheck config o.valgrind).2.2
    let tr4 := tr3 ++
      (if !config.skipValgrind && o.valgrind.stdinPipeErr.isNone
        then [Effect.spawnValgrind] else [])
    if verr.isSome && !config.skipValgrind then
      ({ result with error := some (strToChars "valgrind check failed: " ++ verr.getD []) }, tr4)
    else
      let result := { result with hasLeaks := hasLeaks, hasOpenFDs := hasOpenFDs }
      ({ result with
          passed := classifyPassed config.skipValgrind result.miniOutput result.bashOutput
            result.miniExitCode result.bashExitCode result.outfilesDiff
            result.hasLeaks result.hasOpenFDs,
          timeTaken := o.elapsed }, tr4)

/-- Classification a TestResult receives in the summary tallies
(printSummary lines 740-748 and 761-768): passed, skipped (not passed,
with an error containing "skipped"), or failed. -/
inductive ResultClass where
  | passed
  | skipped
  | failed
  deriving DecidableEq

/-- Apply the tally classification of printSummary to one result. -/
def classifyResult (r : TestResult) : ResultClass :=
  if r.passed then ResultClass.passed
  else
    match r.error with
    | some e =>
      if goContains e (strToChars "skipped") then ResultClass.skipped
      else ResultClass.failed
    | none => ResultClass.failed

/-- Count the results of a list falling in one tally class. -/
def countClass (c : ResultClass) (rs : List TestResult) : Nat :=
  rs.countP (fun r => decide (classifyResult r = c))

/-- Per-category tally `(passed, failed, skipped)` of printSummary
lines 756-769. -/
def categoryTally (rs : List TestResult) : Nat × Nat × Nat :=
  (countClass ResultClass.passed rs, countClass ResultClass.failed rs,
    countClass ResultClass.skipped rs)

/-- All results of a category map, in order (printSummary
lines 714-716). -/
def allResultsOf (m : List (Str × List TestResult)) : List TestResult :=
  (m.map Prod.snd).flatten

/-- Numerator and denominator of the overall pass rate printed at
line 811: passed count over the total number of results. -/
def passRateNumDen (m : List (Str × List TestResult)) : Nat × Nat :=
  (countClass ResultClass.passed (allResultsOf m), (allResultsOf m).length)

/-- Process-level status returned by printSummary (lines 734-748 and
844-854): 1 when any result is tallied as failed, 0 otherwise. -/
def printSummaryStatus (m : List (Str × List TestResult)) : Nat :=
  if countClass ResultClass.failed (allResultsOf m) > 0 then 1 else 0

/-- Go's `isAlphaNumeric` helper (lines 142-144). -/
def isAlphaNumeric (c : Char) : Bool :=
  ('a' ≤ c && c ≤ 'z') || ('A' ≤ c && c ≤ 'Z') || ('0' ≤ c && c ≤ '9')

/-- Backward scan of getPrompt lines 128-136 for the last character that
is neither alphanumeric nor whitespace. -/
def findPromptChar (s : Str) : Option Char :=
  s.reverse.find? (fun c => !isAlphaNumeric c && !goIsSpace c)

/-- Last stage of getPrompt (lines 127-138): regardless of whether a `$`
is present or a candidate prompt character is found, the clean prompt
itself is returned. -/
def promptPatternFinish (cleanPrompt : Str) : Str :=
  if !goContains cleanPrompt (strToChars "$") then
    match findPromptChar cleanPrompt with
    | some _ => cleanPrompt
    | none => cleanPrompt
  else cleanPrompt

/-- Oracle for getPrompt: combined output (or failure) of the first
probe and of the fallback probe. -/
structure PromptOracle where
  firstProbe : RunCapture := RunCapture.ok []
  fallbackProbe : RunCapture := RunCapture.ok []
  deriving DecidableEq

/-- getPrompt (lines 96-139) over its oracle: clean the first probe's
output; when empty, retry with the fallback probe; when still empty,
return the literal `$`. -/
def getPrompt (o : PromptOracle) : RunCapture :=
  match o.firstProbe with
  | RunCapture.failed e => RunCapture.failed (strToChars "failed to get prompt: " ++ e)
  | RunCapture.ok out =>
    let cleanPrompt := trimSpace (removeColors out)
    if cleanPrompt = [] then
      match o.fallbackProbe with
      | RunCapture.failed e =>
        RunCapture.failed (strToChars "failed to get prompt with fallback: " ++ e)
      | RunCapture.ok out2 =>
        let cleanPrompt2 := trimSpace (removeColors out2)
        if cleanPrompt2 = [] then RunCapture.ok (strToChars "$")
        else RunCapture.ok (promptPatternFinish cleanPrompt2)
    else RunCapture.ok (promptPatternFinish cleanPrompt)

/-- Actions taken to terminate a child process after its deadline
elapsed. -/
inductive TermAction where
  | interrupt
  | graceWait (ms : Nat)
  | kill
  deriving DecidableEq

/-- Termination actions of the candidate (minishell) runner on timeout
(lines 386-390): an immediate kill when the process was started, and
nothing else. -/
def miniTimeoutTermActions (processStarted : Bool) : List TermAction :=
  if processStarted then [TermAction.kill] else []

/-- Termination actions of the reference (bash) runner on timeout
(lines 476-480): identical immediate kill. -/
def bashTimeoutTermActions (processStarted : Bool) : List TermAction :=
  if processStarted then [TermAction.kill] else []

/-- Termination actions of the valgrind runner on timeout
(lines 273-287): graceful interrupt, then a 500 ms grace wait and a
forced kill only when the child has not exited inside the window. -/
def valgrindTimeoutTermActions (exitedInGrace : Bool) : List TermAction :=
  TermAction.interrupt ::
    (if exitedInGrace then [] else [TermAction.graceWait 500, TermAction.kill])

theorem classifyPassed_iff (sv : Bool) (mo bo : Str) (me be : Int) (d : Str)
    (hl hf : Bool) :
    classifyPassed sv mo bo me be d hl hf = true ↔
      (mo = bo ∧ me = be ∧ d = [] ∧ (sv = true ∨ (hl = false ∧ hf = false))) := by
  unfold classifyPassed
  cases sv <;>
    simp [Bool.and_eq_true, beq_iff_eq, Bool.not_eq_true', and_assoc]

theorem runTest_passed_or_error (config : Config) (prompt : Str) (test : TestCase)
    (o : RunTestOracle) :
    (runTest config prompt test o).1.passed = false ∨
      (runTest config prompt test o).1.error = none := by
  unfold runTest
  dsimp only
  repeat' split
  all_goals simp

theorem classifyResult_eq_passed_iff (r : TestResult) :
    classifyResult r = ResultClass.passed ↔ r.passed = true := by
  by_cases hp : r.passed
  · simp [classifyResult, hp]
  · have hne : classifyResult r ≠ ResultClass.passed := by
      unfold classifyResult
      rw [if_neg hp]
      split
      · split <;> simp
      · simp
    simp [hne, hp]

theorem classifyResult_trichotomy (r : TestResult) :
    classifyResult r ≠ ResultClass.failed ↔
      (classifyResult r ≠ ResultClass.skipped → r.passed = true) := by
  rcases h : classifyResult r with _ | _ | _
  · have hp := (classifyResult_eq_passed_iff r).mp h
    simp [hp]
  · simp
  · have hp : r.passed = false := by
      rcases Bool.eq_false_or_eq_true r.passed with ht | hf
      · exact absurd ((classifyResult_eq_passed_iff r).mpr ht) (by rw [h]; simp)
      · exact hf
    simp [hp]

theorem countClass_partition (l : List TestResult) :
    countClass ResultClass.passed l + countClass ResultClass.failed l +
      countClass ResultClass.skipped l = l.length := by
  induction l with
  | nil => rfl
  | cons r l ih =>
    rcases h : classifyResult r with _ | _ | _ <;>
      simp [countClass, List.countP_cons, h] at ih ⊢ <;> omega

theorem mem_allResultsOf {r : TestResult} {m : List (Str × List TestResult)} :
    r ∈ allResultsOf m ↔ ∃ p ∈ m, r ∈ p.2 := by
  unfold allResultsOf
  rw [List.mem_flatten]
  constructor
  · rintro ⟨l, hl, hr⟩
    obtain ⟨p, hp, rfl⟩ := List.mem_map.mp hl
    exact ⟨p, hp, hr⟩
  · rintro ⟨p, hp, hr⟩
    exact ⟨p.2, List.mem_map.mpr ⟨p, hp, rfl⟩, hr⟩

/-- Oracle for a run in which every step completes: both shells finish,
all directory operations succeed, the diff yields `diffOut`, and the
stderr captures fail to read (left empty). -/
def completedOracle (out : Str) (cerr : CmdError) (bout : Str) (berr : CmdError)
    (diffOut : Str) (vg : ValgrindEvent) (t : Nat) : RunTestOracle :=
  { miniRun := RunOutcome.completed out cerr,
    bashRun := RunOutcome.completed bout berr,
    compareOutcome := RunCapture.ok diffOut,
    valgrind := vg,
    elapsed := t }

/-- Sample configuration with leak checking disabled. -/
def sampleConfigSkipVal : Config :=
  { skipValgrind := true, verbose := false, timeout := 5, valgrindTimeout := 0 }

/-- Sample configuration with leak checking enabled. -/
def sampleConfigVal : Config :=
  { skipValgrind := false, verbose := false, timeout := 5, valgrindTimeout := 10 }

/-- Sample non-skipped test case. -/
def sampleTest : TestCase :=
  { command := strToChars "echo hola", description := [], skip := false }

/-- Sample skipped test case. -/
def sampleSkipTest : TestCase :=
  { command := strToChars "echo hola", description := [], skip := true }

/-- Oracle of a run in which both shells print `hola` and exit 0. -/
def samplePassOracle : RunTestOracle :=
  completedOracle (strToChars "hola\n") CmdError.none (strToChars "hola\n")
    CmdError.none [] {} 7

/-- Oracle of a run in which the candidate exceeds its deadline. -/
def sampleTimeoutOracle : RunTestOracle :=
  { miniRun := RunOutcome.timedOut }

/-- Oracle of a run in which spawning the candidate pipeline fails with a
non-ExitError error while the reference run completes normally. -/
def sampleSpawnFailOracle : RunTestOracle :=
  completedOracle [] (CmdError.other (strToChars "no such file or directory"))
    (strToChars "hola\n") CmdError.none [] {} 3

/-- Sample passing TestResult. -/
def samplePassedResult : TestResult := { passed := true }

/-- Sample skipped TestResult, as produced by runTest for skip-marked
cases. -/
def sampleSkippedResult : TestResult := { error := some (strToChars "test skipped") }

/-- Claim C1: for every executed (non-skipped, error-free) test case,
`passed` is true iff the normalized candidate output equals the
normalized reference output, the exit codes are equal, the filesystem
diff is empty, and leak checking is disabled or both resource flags are
clear. -/
theorem c1_theorem (config : Config) (prompt : Str) (test : TestCase)
    (o : RunTestOracle) (h : (runTest config prompt test o).1.error = none) :
    ((runTest config prompt test o).1.passed = true ↔
      ((runTest config prompt test o).1.miniOutput =
          (runTest config prompt test o).1.bashOutput ∧
        (runTest config prompt test o).1.miniExitCode =
          (runTest config prompt test o).1.bashExitCode ∧
        (runTest config prompt test o).1.outfilesDiff = [] ∧
        (config.skipValgrind = true ∨
          ((runTest config prompt test o).1.hasLeaks = false ∧
            (runTest config prompt test o).1.hasOpenFDs = false)))) := by
  revert h
  unfold runTest
  dsimp only
  repeat' split
  all_goals intro h
  all_goals simp_all [classifyPassed_iff]

/-- Witness for C1: the pass invariant instantiated on a concrete
error-free run where both shells print `hola` and exit 0. -/
theorem c1_witness :
    (runTest sampleConfigSkipVal (strToChars "$") sampleTest samplePassOracle).1.error =
        none ∧
      ((runTest sampleConfigSkipVal (strToChars "$") sampleTest samplePassOracle).1.passed =
          true ↔
        ((runTest sampleConfigSkipVal (strToChars "$") sampleTest samplePassOracle).1.miniOutput =
            (runTest sampleConfigSkipVal (strToChars "$") sampleTest samplePassOracle).1.bashOutput ∧
          (runTest sampleConfigSkipVal (strToChars "$") sampleTest samplePassOracle).1.miniExitCode =
            (runTest sampleConfigSkipVal (strToChars "$") sampleTest samplePassOracle).1.bashExitCode ∧
          (runTest sampleConfigSkipVal (strToChars "$") sampleTest samplePassOracle).1.outfilesDiff =
            [] ∧
          (sampleConfigSkipVal.skipValgrind = true ∨
            ((runTest sampleConfigSkipVal (strToChars "$") sampleTest samplePassOracle).1.hasLeaks =
                false ∧
              (runTest sampleConfigSkipVal (strToChars "$") sampleTest samplePassOracle).1.hasOpenFDs =
                false)))) :=
  ⟨by decide,
    c1_theorem sampleConfigSkipVal (strToChars "$") sampleTest samplePassOracle (by decide)⟩

/-- Claim C2: the suite summary returns status 0 iff every result not
tallied as skipped has `passed = true`, over any category map. -/
theorem c2_theorem (m : List (Str × List TestResult)) :
    printSummaryStatus m = 0 ↔
      ∀ p ∈ m, ∀ r ∈ p.2, classifyResult r ≠ ResultClass.skipped → r.passed = true := by
  unfold printSummaryStatus
  constructor
  · intro h p hp r hr
    have hz : countClass ResultClass.failed (allResultsOf m) = 0 := by
      by_contra hnz
      rw [if_pos (Nat.pos_of_ne_zero hnz)] at h
      exact one_ne_zero h
    have hall := List.countP_eq_zero.mp hz
    have hr' : r ∈ allResultsOf m := mem_allResultsOf.mpr ⟨p, hp, hr⟩
    have hnf := hall r hr'
    simp only [decide_eq_true_eq] at hnf
    exact (classifyResult_trichotomy r).mp hnf
  · intro h
    have hz : countClass ResultClass.failed (allResultsOf m) = 0 := by
      apply List.countP_eq_zero.mpr
      intro r hr
      simp only [decide_eq_true_eq]
      obtain ⟨p, hp, hrp⟩ := mem_allResultsOf.mp hr
      exact (classifyResult_trichotomy r).mpr (h p hp r hrp)
    rw [hz]
    simp

/-- Claim C4 (counterexample): a candidate timeout yields a failed,
error-marked result, but its recorded duration is the zero value 0, not
the configured timeout (here 5). -/
theorem c4_counterexample :
    (runTest sampleConfigSkipVal [] sampleTest sampleTimeoutOracle).1.error ≠ none ∧
      (runTest sampleConfigSkipVal [] sampleTest sampleTimeoutOracle).1.passed = false ∧
      (runTest sampleConfigSkipVal [] sampleTest sampleTimeoutOracle).1.timeTaken ≠
        sampleConfigSkipVal.timeout := by
  refine ⟨?_, ?_, ?_⟩ <;> decide

/-- Claim C4 (amended): when the candidate run exceeds the timeout, the
executor short-circuits with a "timed out" TestResult: `passed = false`,
output `COMMAND TIMED OUT`, exit code -1, the `TimeTaken` field left at
its zero value, and neither the reference shell nor valgrind is
spawned. -/
theorem c4_theorem (config : Config) (prompt : Str) (test : TestCase)
    (o : RunTestOracle) (hskip : test.skip = false) (h1 : o.cleanOutfiles1 = none)
    (h2 : o.cleanMiniOut = none) (h3 : o.cleanBashOut = none)
    (ht : o.miniRun = RunOutcome.timedOut) :
    runTest config prompt test o =
      ({ command := test.command,
          passed := false,
          miniOutput := strToChars "COMMAND TIMED OUT",
          miniExitCode := -1,
          timeTaken := 0,
          error := some (strToChars "minishell command timed out after " ++
            durStr config.timeout) },
        [Effect.cleanOutfilesDirEff, Effect.cleanMiniOutDirEff,
          Effect.cleanBashOutDirEff, Effect.spawnMinishell]) ∧
      Effect.spawnBash ∉ (runTest config prompt test o).2 ∧
      Effect.spawnValgrind ∉ (runTest config prompt test o).2 := by
  have hrt : runTest config prompt test o =
      ({ command := test.command,
          passed := false,
          miniOutput := strToChars "COMMAND TIMED OUT",
          miniExitCode := -1,
          timeTaken := 0,
          error := some (strToChars "minishell command timed out after " ++
            durStr config.timeout) },
        [Effect.cleanOutfilesDirEff, Effect.cleanMiniOutDirEff,
          Effect.cleanBashOutDirEff, Effect.spawnMinishell]) := by
    unfold runTest
    rw [hskip, h1, h2, h3, ht]
    rfl
  refine ⟨hrt, ?_, ?_⟩ <;> rw [hrt] <;> simp

/-- Witness for C4: the amended timeout behaviour instantiated on the
concrete timeout oracle. -/
theorem c4_witness :
    sampleTimeoutOracle.miniRun = RunOutcome.timedOut ∧
      (runTest sampleConfigSkipVal [] sampleTest sampleTimeoutOracle =
        ({ command := sampleTest.command,
            passed := false,
            miniOutput := strToChars "COMMAND TIMED OUT",
            miniExitCode := -1,
            timeTaken := 0,
            error := some (strToChars "minishell command timed out after " ++
              durStr sampleConfigSkipVal.timeout) },
          [Effect.cleanOutfilesDirEff, Effect.cleanMiniOutDirEff,
            Effect.cleanBashOutDirEff, Effect.spawnMinishell]) ∧
        Effect.spawnBash ∉ (runTest sampleConfigSkipVal [] sampleTest sampleTimeoutOracle).2 ∧
        Effect.spawnValgrind ∉ (runTest sampleConfigSkipVal [] sampleTest sampleTimeoutOracle).2) :=
  ⟨by decide,
    c4_theorem sampleConfigSkipVal [] sampleTest sampleTimeoutOracle (by decide)
      (by decide) (by decide) (by decide) (by decide)⟩

/-- Claim C5 (counterexample): the candidate runner's timeout path
performs an immediate kill only; it never attempts the graceful
interrupt (or the 500 ms grace wait) the claim requires of every process
run. -/
theorem c5_counterexample :
    TermAction.interrupt ∉ miniTimeoutTermActions true ∧
      TermAction.graceWait 500 ∉ miniTimeoutTermActions true ∧
      miniTimeoutTermActions true = [TermAction.kill] := by
  decide

/-- Claim C5 (amended): only the instrumented (valgrind) runner
terminates by graceful interrupt, then a 500 ms grace wait and a forced
kill when the child has not exited; the candidate and reference runners
kill immediately on timeout, without interrupt or grace window. -/
theorem c5_theorem : ∀ (exited started : Bool),
    (valgrindTimeoutTermActions exited).head? = some TermAction.interrupt ∧
      (TermAction.kill ∈ valgrindTimeoutTermActions exited ↔ exited = false) ∧
      valgrindTimeoutTermActions false =
        [TermAction.interrupt, TermAction.graceWait 500, TermAction.kill] ∧
      TermAction.interrupt ∉ miniTimeoutTermActions started ∧
      TermAction.interrupt ∉ bashTimeoutTermActions started := by
  decide

/-- Claim C6 (counterexample): a spawn failure of the candidate pipeline
(non-ExitError from `Output()`) is silently ignored: the run proceeds,
the result's error field stays nil and the exit code stays 0, so the
failure is never "reported as an error in the TestResult's error
field". -/
theorem c6_counterexample :
    (runTest sampleConfigSkipVal [] sampleTest sampleSpawnFailOracle).1.error = none ∧
      (runTest sampleConfigSkipVal [] sampleTest sampleSpawnFailOracle).1.miniExitCode = 0 ∧
      Effect.spawnMinishell ∈ (runTest sampleConfigSkipVal [] sampleTest sampleSpawnFailOracle).2 := by
  refine ⟨?_, ?_, ?_⟩ <;> decide

/-- Claim C6 (amended): in a run where every step completes, a
process-spawn failure is not reported: the error field is nil and the
exit code stays 0; an `*exec.ExitError` stores its code as data, equally
without an error. -/
theorem c6_theorem (config : Config) (prompt : Str) (cmd desc out bout diffOut : Str)
    (cerr berr : CmdError) (vg : ValgrindEvent) (t : Nat)
    (hsv : config.skipValgrind = true) :
    (runTest config prompt ⟨cmd, desc, false⟩
        (completedOracle out cerr bout berr diffOut vg t)).1.error = none ∧
      (runTest config prompt ⟨cmd, desc, false⟩
          (completedOracle out cerr bout berr diffOut vg t)).1.miniExitCode =
        (match cerr with | CmdError.exitError code => code | _ => 0) ∧
      (runTest config prompt ⟨cmd, desc, false⟩
          (completedOracle out cerr bout berr diffOut vg t)).1.bashExitCode =
        (match berr with | CmdError.exitError code => code | _ => 0) := by
  unfold runTest completedOracle runValgrindCheck
  simp [hsv]

/-- Witness for C6: the amended no-spawn-error-reporting behaviour
instantiated on a concrete spawn-failure run. -/
theorem c6_witness :
    sampleConfigSkipVal.skipValgrind = true ∧
      ((runTest sampleConfigSkipVal [] ⟨strToChars "echo hola", [], false⟩
          (completedOracle [] (CmdError.other (strToChars "no such file or directory"))
            (strToChars "hola\n") CmdError.none [] {} 3)).1.error = none ∧
        (runTest sampleConfigSkipVal [] ⟨strToChars "echo hola", [], false⟩
            (completedOracle [] (CmdError.other (strToChars "no such file or directory"))
              (strToChars "hola\n") CmdError.none [] {} 3)).1.miniExitCode =
          (match CmdError.other (strToChars "no such file or directory") with
            | CmdError.exitError code => code | _ => 0) ∧
        (runTest sampleConfigSkipVal [] ⟨strToChars "echo hola", [], false⟩
            (completedOracle [] (CmdError.other (strToChars "no such file or directory"))
              (strToChars "hola\n") CmdError.none [] {} 3)).1.bashExitCode =
          (match CmdError.none with | CmdError.exitError code => code | _ => 0)) :=
  ⟨by decide,
    c6_theorem sampleConfigSkipVal [] (strToChars "echo hola") [] []
      (strToChars "hola\n") [] (CmdError.other (strToChars "no such file or directory"))
      CmdError.none {} 3 (by decide)⟩

/-- Claim C7: a skip-marked test case performs no external effect at all
(no subprocess, no directory clearing), and yields `passed = false` with
the "test skipped" error, which the summary tallies as skipped. -/
theorem c7_theorem (config : Config) (prompt : Str) (test : TestCase)
    (o : RunTestOracle) (h : test.skip = true) :
    runTest config prompt test o =
      ({ command := test.command, error := some (strToChars "test skipped") }, []) ∧
      (runTest config prompt test o).1.passed = false ∧
      classifyResult (runTest config prompt test o).1 = ResultClass.skipped := by
  have hrt : runTest config prompt test o =
      ({ command := test.command, error := some (strToChars "test skipped") }, []) := by
    unfold runTest
    rw [if_pos h]
  refine ⟨hrt, ?_, ?_⟩
  · rw [hrt]
  · rw [hrt]
    rfl

/-- Witness for C7: the skip behaviour instantiated on a concrete
skip-marked test case. -/
theorem c7_witness :
    sampleSkipTest.skip = true ∧
      (runTest sampleConfigSkipVal [] sampleSkipTest samplePassOracle =
        ({ command := sampleSkipTest.command, error := some (strToChars "test skipped") }, []) ∧
        (runTest sampleConfigSkipVal [] sampleSkipTest samplePassOracle).1.passed = false ∧
        classifyResult (runTest sampleConfigSkipVal [] sampleSkipTest samplePassOracle).1 =
          ResultClass.skipped) :=
  ⟨by decide, c7_theorem sampleConfigSkipVal [] sampleSkipTest samplePassOracle (by decide)⟩

/-- Claim C8 (counterexample): with one passing and one skipped result,
the pass-rate denominator computed by printSummary is 2, the total
including the skipped case, not the 1 the claim's exclusion would
give. -/
theorem c8_counterexample :
    (passRateNumDen [(strToChars "builtins", [samplePassedResult, sampleSkippedResult])]).2 = 2 ∧
      countClass ResultClass.skipped
        (allResultsOf [(strToChars "builtins", [samplePassedResult, sampleSkippedResult])]) = 1 ∧
      (passRateNumDen [(strToChars "builtins", [samplePassedResult, sampleSkippedResult])]).2 ≠
        (allResultsOf [(strToChars "builtins", [samplePassedResult, sampleSkippedResult])]).length -
          countClass ResultClass.skipped
            (allResultsOf [(strToChars "builtins", [samplePassedResult, sampleSkippedResult])]) := by
  refine ⟨?_, ?_, ?_⟩ <;> decide

/-- Claim C8 (amended): the per-category counts passed/failed/skipped
partition the category's results, and the overall pass-rate denominator
is the total result count, which includes skipped cases. -/
theorem c8_theorem (rs : List TestResult) (m : List (Str × List TestResult)) :
    ((categoryTally rs).1 + (categoryTally rs).2.1 + (categoryTally rs).2.2 = rs.length) ∧
      (passRateNumDen m).2 =
        countClass ResultClass.passed (allResultsOf m) +
          countClass ResultClass.failed (allResultsOf m) +
          countClass ResultClass.skipped (allResultsOf m) := by
  constructor
  · exact countClass_partition rs
  · exact (countClass_partition (allResultsOf m)).symm

/-- Claim C9: any TestResult runTest returns with a non-nil error field
has `passed = false`. -/
theorem c9_theorem (config : Config) (prompt : Str) (test : TestCase)
    (o : RunTestOracle) (h : (runTest config prompt test o).1.error ≠ none) :
    (runTest config prompt test o).1.passed = false := by
  rcases runTest_passed_or_error config prompt test o with hp | he
  · exact hp
  · exact absurd he h

/-- Witness for C9: the error-implies-failed invariant instantiated on a
concrete timed-out run. -/
theorem c9_witness :
    (runTest sampleConfigVal [] sampleTest sampleTimeoutOracle).1.error ≠ none ∧
      (runTest sampleConfigVal [] sampleTest sampleTimeoutOracle).1.passed = false :=
  ⟨by decide, c9_theorem sampleConfigVal [] sampleTest sampleTimeoutOracle (by decide)⟩

theorem promptPatternFinish_eq (s : Str) : promptPatternFinish s = s := by
  unfold promptPatternFinish
  split
  · split <;> rfl
  · rfl

/-- Claim C10: whenever prompt discovery succeeds, the returned prompt
is non-empty (the trimmed probe output or the literal `$` fallback). -/
theorem c10_theorem (o : PromptOracle) (p : Str)
    (h : getPrompt o = RunCapture.ok p) : p ≠ [] := by
  unfold getPrompt at h
  rcases hf : o.firstProbe with out | e
  · rw [hf] at h
    dsimp only at h
    by_cases h1 : trimSpace (removeColors out) = []
    · rw [if_pos h1] at h
      rcases hfb : o.fallbackProbe with out2 | e2
      · rw [hfb] at h
        dsimp only at h
        by_cases h2 : trimSpace (removeColors out2) = []
        · rw [if_pos h2] at h
          injection h with h'
          rw [← h']
          decide
        · rw [if_neg h2, promptPatternFinish_eq] at h
          injection h with h'
          exact h' ▸ h2
      · rw [hfb] at h
        exact absurd h (by simp)
    · rw [if_neg h1, promptPatternFinish_eq] at h
      injection h with h'
      exact h' ▸ h1
  · rw [hf] at h
    exact absurd h (by simp)

/-- Witness for C10: prompt discovery on a concrete probe output yields
the non-empty prompt `minishell$`. -/
theorem c10_witness :
    getPrompt { firstProbe := RunCapture.ok (strToChars "minishell$ \n") } =
        RunCapture.ok (strToChars "minishell$") ∧
      strToChars "minishell$" ≠ [] :=
  ⟨by decide,
    c10_theorem { firstProbe := RunCapture.ok (strToChars "minishell$ \n") }
      (strToChars "minishell$") (by decide)⟩

end ShellTester
